import Mathlib

/-!
# Verification of the `api_hashtable` engine (mymmsc/ssh-proxy)

The repository ships the public interface of a chained hash table in
`src/include/api_hashtable.h` (struct `api_hashtable_t`, flags enum, the
`api_hashtable_*` operations, `HT_INITIAL_SIZE`).  The `.c` implementation
behind those declarations is not part of the source tree, so the operations
are modelled from the specification: keys and values are uninterpreted byte strings
(here `List Nat`), the table owns a bucket array of entry chains, bucket
index is `digest(key) mod array_size`, and a collision-driven autoresize
policy doubles the array when the ratio of collisions to array size exceeds
`max_load_factor` (unless `HT_NO_AUTORESIZE` is set).
-/

namespace ApiHashtable

/-- A chain node.  Modelled from the spec: `hash_entry` is declared private
in `api_hashtable.h` and its definition is not in src.  An entry owns a
byte-copy of its key and of its value (sizes are the list lengths), chains
are represented as Lean lists. -/
structure Entry where
  key : List Nat
  value : List Nat
deriving DecidableEq

/-- The table state, mirroring `api_hashtable_t`: the bound 32-bit hash
function, the internal array of chains, `key_count`, `collisions`, `flags`,
`max_load_factor` and the stored `current_load_factor` (C `double`s are
modelled as rationals).  `array_size` is the length of `array`. -/
structure Table where
  hashfunc : List Nat → Nat
  array : List (List Entry)
  key_count : Nat
  collisions : Nat
  flags : Nat
  max_load_factor : ℚ
  current_load_factor : ℚ

/-- `HT_INITIAL_SIZE` from `api_hashtable.h` (default, build-overridable). -/
def HT_INITIAL_SIZE : Nat := 64

/-- Flag values from the `api_hashtable_flags` enum in `api_hashtable.h`. -/
def HT_NONE : Nat := 0

def HT_KEY_CONST : Nat := 1

def HT_VALUE_CONST : Nat := 2

def HT_NO_AUTORESIZE : Nat := 4

/-- Whether the `HT_NO_AUTORESIZE` bit (value 4, i.e. bit 2) is set. -/
def Table.noAutoresize (t : Table) : Bool := t.flags.testBit 2

/-- The size of the internal array (`array_size` field of `api_hashtable_t`,
kept in sync with the array itself). -/
def Table.array_size (t : Table) : Nat := t.array.length

/-- The 32-bit digest of a key under the table's bound hash function
(`hashfunc_x86_32`); the hash primitive writes a 32-bit output. -/
def Table.digest32 (t : Table) (k : List Nat) : Nat := t.hashfunc k % 2 ^ 32

/-- `api_hashtable_index`.  Modelled from the spec: bucket index is the
key's digest modulo the current capacity. -/
def api_hashtable_index (t : Table) (k : List Nat) : Nat :=
  t.digest32 k % t.array_size

/-- The chain at the bucket a key indexes to. -/
def Table.bucket (t : Table) (k : List Nat) : List Entry :=
  t.array.getD (api_hashtable_index t k) []

/-- `api_hashtable_get`.  Modelled from the spec: computes the index, walks
the chain comparing lengths then byte content, returns the value and its
size on a match, absence (`none`) otherwise. -/
def api_hashtable_get (t : Table) (k : List Nat) : Option (List Nat × Nat) :=
  match (t.bucket k).find? (fun e => decide (e.key = k)) with
  | some e => some (e.value, e.value.length)
  | none => none

/-- `api_hashtable_contains`.  Modelled from the spec: same walk as `get`
but returns 1 if the key is in the table, 0 otherwise (C `int`). -/
def api_hashtable_contains (t : Table) (k : List Nat) : Nat :=
  if (t.bucket k).any (fun e => decide (e.key = k)) then 1 else 0

/-- `api_hashtable_size`: returns `key_count`. -/
def api_hashtable_size (t : Table) : Nat := t.key_count

/-- One relink step of a resize: splice an existing entry into the chain it
indexes to under the new capacity (the `insert_he`-style splice: no byte
copy, no collisions-counter side effect). -/
def spliceEntry (hash : List Nat → Nat) (arr : List (List Entry)) (e : Entry) :
    List (List Entry) :=
  let i := hash e.key % 2 ^ 32 % arr.length
  arr.set i (arr.getD i [] ++ [e])

/-- The number of collisions a bucket arrangement exhibits on its own: each
bucket contributes one collision per entry beyond its first (this is what
inserting all entries freshly into the arrangement would have counted). -/
def chainExcess (arr : List (List Entry)) : Nat :=
  (arr.map (fun b => b.length - 1)).sum

/-- `api_hashtable_resize`.  Modelled from the spec: allocates a fresh
bucket array of `new_size` slots, re-indexes every entry against the new
capacity and relinks it by splicing, then resets `collisions` and
`current_load_factor` to reflect only the new arrangement.  Resizing to
zero slots is invalid and leaves the table untouched (see the checked
variant below for the error surface). -/
def api_hashtable_resize (t : Table) (new_size : Nat) : Table :=
  if new_size = 0 then t
  else
    let arr := t.array.flatten.foldl (spliceEntry t.hashfunc) (List.replicate new_size [])
    { t with array := arr,
             collisions := chainExcess arr,
             current_load_factor := (chainExcess arr : ℚ) / (new_size : ℚ) }

/-- Replace the value of every entry whose key equals `k` (at most one under
the table's key-uniqueness invariant), keeping chain order. -/
def replaceValue (b : List Entry) (k v : List Nat) : List Entry :=
  b.map (fun e => if e.key = k then { e with value := v } else e)

/-- `api_hashtable_insert`.  Modelled from the spec: computes the index and
copies key and value into the chain at that index.  If an equal key already
exists its value is replaced (old value discarded, `key_count` unchanged);
otherwise the new entry is linked at the end of the chain and `key_count`
is incremented.  If the target bucket was non-empty before the insertion,
`collisions` increments by one and `current_load_factor` is recomputed; if
the resulting load factor exceeds `max_load_factor` and `HT_NO_AUTORESIZE`
is not set, the table doubles its bucket array via resize before
returning.  `insertRaw` is the chain/counter update before the autoresize
policy is evaluated; `api_hashtable_insert` composes it with the policy. -/
def insertRaw (t : Table) (k v : List Nat) : Table :=
  if (t.bucket k).isEmpty then
    { t with array := t.array.set (api_hashtable_index t k) [⟨k, v⟩],
             key_count := t.key_count + 1 }
  else
    { t with
      array := t.array.set (api_hashtable_index t k)
        (if (t.bucket k).any (fun e => decide (e.key = k)) then
          replaceValue (t.bucket k) k v
        else t.bucket k ++ [⟨k, v⟩]),
      key_count := if (t.bucket k).any (fun e => decide (e.key = k)) then
          t.key_count
        else t.key_count + 1,
      collisions := t.collisions + 1,
      current_load_factor := ((t.collisions + 1 : Nat) : ℚ) / (t.array_size : ℚ) }

/-- Whether this insertion lands on a non-empty bucket and pushes the
recomputed load factor over `max_load_factor` with autoresize enabled. -/
def resizeTriggered (t : Table) (k : List Nat) : Prop :=
  (t.bucket k).isEmpty = false ∧ t.noAutoresize = false ∧
    t.max_load_factor < ((t.collisions + 1 : Nat) : ℚ) / (t.array_size : ℚ)

instance (t : Table) (k : List Nat) : Decidable (resizeTriggered t k) := by
  unfold resizeTriggered; infer_instance

def api_hashtable_insert (t : Table) (k v : List Nat) : Table :=
  if resizeTriggered t k then
    api_hashtable_resize (insertRaw t k v) (2 * (insertRaw t k v).array_size)
  else insertRaw t k v

/-- Remove the first entry whose key equals `k` from a chain. -/
def removeFirst (b : List Entry) (k : List Nat) : List Entry :=
  match b with
  | [] => []
  | e :: rest => if e.key = k then rest else e :: removeFirst rest k

/-- `api_hashtable_remove`.  Modelled from the spec: walks the target chain
and, if the key is found, unlinks that entry and decrements `key_count`;
removing a nonexistent key is a no-op, not an error. -/
def api_hashtable_remove (t : Table) (k : List Nat) : Table :=
  if (t.bucket k).any (fun e => decide (e.key = k)) then
    { t with array := t.array.set (api_hashtable_index t k) (removeFirst (t.bucket k) k),
             key_count := t.key_count - 1 }
  else t

/-- `api_hashtable_clear`.  Modelled from the spec: destroys every entry in
every chain, resets `key_count`, `collisions` and `current_load_factor` to
zero, and preserves the current `array_size`. -/
def api_hashtable_clear (t : Table) : Table :=
  { t with array := List.replicate t.array.length [],
           key_count := 0, collisions := 0, current_load_factor := 0 }

/-- `api_hashtable_init`.  Modelled from the spec: allocates a bucket array
of `HT_INITIAL_SIZE` slots, zeroes all counters, records flags and the
load-factor threshold, and binds the hash function. -/
def api_hashtable_init (hash : List Nat → Nat) (flags : Nat)
    (max_load_factor : ℚ) : Table :=
  { hashfunc := hash,
    array := List.replicate HT_INITIAL_SIZE [],
    key_count := 0,
    collisions := 0,
    flags := flags,
    max_load_factor := max_load_factor,
    current_load_factor := 0 }

/-- All live entries of the table, bucket order then chain order. -/
def entries (t : Table) : List Entry := t.array.flatten

/-- Well-formedness of a table state, established by `api_hashtable_init`
and preserved by every operation: positive capacity, every entry lies in
the bucket its key indexes to, keys are unique within each chain,
`key_count` counts the live entries, and the stored `current_load_factor`
equals `collisions / array_size`. -/
structure WF (t : Table) : Prop where
  pos : 0 < t.array.length
  placed : ∀ i, ∀ e ∈ t.array.getD i [], t.hashfunc e.key % 2 ^ 32 % t.array.length = i
  nodup : ∀ i, ((t.array.getD i []).map Entry.key).Nodup
  count : t.key_count = (t.array.map List.length).sum
  clf : t.current_load_factor = (t.collisions : ℚ) / (t.array.length : ℚ)

/-- Mutating operations of the public surface, for stating properties over
arbitrary interleaved call sequences. -/
inductive Op where
  | ins (k v : List Nat)
  | rem (k : List Nat)
  | clr
  | rsz (n : Nat)

/-- Apply one mutating operation. -/
def applyOp (t : Table) : Op → Table
  | .ins k v => api_hashtable_insert t k v
  | .rem k => api_hashtable_remove t k
  | .clr => api_hashtable_clear t
  | .rsz n => api_hashtable_resize t n

/-- Apply a sequence of mutating operations, left to right. -/
def applyOps (t : Table) (ops : List Op) : Table := ops.foldl applyOp t

/-- Whether an operation may remove or overwrite the binding of key `k`. -/
def touches (k : List Nat) : Op → Prop
  | .ins k' _ => k' = k
  | .rem k' => k' = k
  | .clr => True
  | .rsz _ => False

/-- Read-only queries of the public surface. -/
inductive Query where
  | qget (k : List Nat)
  | qcontains (k : List Nat)

/-- Result of a read-only query. -/
inductive QueryResult where
  | rget (r : Option (List Nat × Nat))
  | rcontains (r : Nat)
deriving DecidableEq

/-- Run a read-only query, returning the (unchanged) table together with
the answer.  Modelled from the spec: `get` and `contains` are read-only and
never alter counters. -/
def runQuery (t : Table) : Query → Table × QueryResult
  | .qget k => (t, .rget (api_hashtable_get t k))
  | .qcontains k => (t, .rcontains (api_hashtable_contains t k))

/-- Error kinds of the failure taxonomy.  Modelled from the spec: the `.c`
implementation is not in src; the spec's error-handling design asks for a
distinct `OutOfMemory` kind on allocation failure and an explicit
`InvalidArgument` kind on invalid arguments. -/
inductive HtError where
  | OutOfMemory
  | InvalidArgument
deriving DecidableEq

/-- Checked insert.  Modelled from the spec: validates the arguments
(zero-length key, null value pointer with nonzero declared size) and the
allocation outcome `allocOk` (whether memory for the new entry could be
obtained) before performing the insert; a null value pointer is modelled as
`none`. -/
def api_hashtable_insert_checked (allocOk : Bool) (t : Table) (k : List Nat)
    (value : Option (List Nat)) (value_size : Nat) : Except HtError Table :=
  if k.length = 0 then .error .InvalidArgument
  else if value = none ∧ value_size ≠ 0 then .error .InvalidArgument
  else if allocOk = false then .error .OutOfMemory
  else .ok (api_hashtable_insert t k (value.getD []))

/-- Checked resize.  Modelled from the spec: resizing to zero slots is an
invalid argument, and failure to obtain memory for the new bucket array is
an out-of-memory error. -/
def api_hashtable_resize_checked (allocOk : Bool) (t : Table) (new_size : Nat) :
    Except HtError Table :=
  if new_size = 0 then .error .InvalidArgument
  else if allocOk = false then .error .OutOfMemory
  else .ok (api_hashtable_resize t new_size)

/-- Every entry of an arrangement lies in the bucket its key digests to. -/
def Placed (hash : List Nat → Nat) (arr : List (List Entry)) : Prop :=
  ∀ i, ∀ e ∈ arr.getD i [], hash e.key % 2 ^ 32 % arr.length = i

/-- The running-counter consistency the spec demands of every reachable
state: positive capacity and a `current_load_factor` that is exactly
`collisions / array_size`, never stale. -/
def countersOk (t : Table) : Prop :=
  0 < t.array_size ∧
    t.current_load_factor = (t.collisions : ℚ) / (t.array_size : ℚ)

/-! ## Concrete fixtures for exercising the model -/

/-- A concrete (toy) hash function used to exercise the model on closed
inputs; the engine is agnostic to the digest algorithm. -/
def sumHash : List Nat → Nat := fun l => l.sum

/-- A freshly initialized table with no options and threshold 1. -/
def tEx : Table := api_hashtable_init sumHash HT_NONE 1

/-! ## Chain-level lemmas -/

lemma replaceValue_cons (e : Entry) (rest : List Entry) (k v : List Nat) :
    replaceValue (e :: rest) k v =
      (if e.key = k then { e with value := v } else e) :: replaceValue rest k v := rfl

lemma map_key_replaceValue (b : List Entry) (k v : List Nat) :
    (replaceValue b k v).map Entry.key = b.map Entry.key := by
  induction b with
  | nil => rfl
  | cons e rest ih =>
    rw [replaceValue_cons, List.map_cons, List.map_cons, ih]
    split <;> rfl

lemma length_replaceValue (b : List Entry) (k v : List Nat) :
    (replaceValue b k v).length = b.length := by
  unfold replaceValue; exact b.length_map _

lemma find?_replaceValue_self {b : List Entry} {k v : List Nat}
    (h : b.any (fun e => decide (e.key = k)) = true) :
    (replaceValue b k v).find? (fun e => decide (e.key = k)) = some ⟨k, v⟩ := by
  induction b with
  | nil => simp at h
  | cons e rest ih =>
    rw [replaceValue_cons]
    by_cases he : e.key = k
    · simp [he]
    · have h' : rest.any (fun e => decide (e.key = k)) = true := by
        simpa [he] using h
      rw [if_neg he, List.find?_cons_of_neg _ (by simpa using he)]
      exact ih h'

lemma find?_replaceValue_ne {b : List Entry} {k k' v : List Nat} (h : k' ≠ k) :
    (replaceValue b k' v).find? (fun e => decide (e.key = k)) =
      b.find? (fun e => decide (e.key = k)) := by
  induction b with
  | nil => rfl
  | cons e rest ih =>
    rw [replaceValue_cons]
    by_cases he : e.key = k'
    · have hek : ¬ e.key = k := by rw [he]; exact h
      rw [if_pos he, List.find?_cons_of_neg _ (by simpa using hek),
        List.find?_cons_of_neg _ (by simpa using hek), ih]
    · rw [if_neg he]
      by_cases hek : e.key = k
      · rw [List.find?_cons_of_pos _ (by simpa using hek),
          List.find?_cons_of_pos _ (by simpa using hek)]
      · rw [List.find?_cons_of_neg _ (by simpa using hek),
          List.find?_cons_of_neg _ (by simpa using hek), ih]

lemma removeFirst_sublist (b : List Entry) (k : List Nat) : List.Sublist (removeFirst b k) b := by
  induction b with
  | nil => simp [removeFirst]
  | cons e rest ih =>
    unfold removeFirst
    split
    · exact List.sublist_cons_self e rest
    · exact ih.cons₂ e

lemma mem_of_mem_removeFirst {b : List Entry} {k : List Nat} {e : Entry}
    (h : e ∈ removeFirst b k) : e ∈ b :=
  (removeFirst_sublist b k).mem h

lemma find?_removeFirst_ne {b : List Entry} {k k' : List Nat} (h : k' ≠ k) :
    (removeFirst b k').find? (fun e => decide (e.key = k)) =
      b.find? (fun e => decide (e.key = k)) := by
  induction b with
  | nil => rfl
  | cons e rest ih =>
    unfold removeFirst
    by_cases he : e.key = k'
    · have hek : ¬ e.key = k := by rw [he]; exact h
      rw [if_pos he, List.find?_cons_of_neg _ (by simpa using hek)]
    · rw [if_neg he]
      by_cases hek : e.key = k
      · rw [List.find?_cons_of_pos _ (by simpa using hek),
          List.find?_cons_of_pos _ (by simpa using hek)]
      · rw [List.find?_cons_of_neg _ (by simpa using hek),
          List.find?_cons_of_neg _ (by simpa using hek), ih]

lemma key_ne_of_mem_removeFirst {b : List Entry} {k : List Nat}
    (hnd : (b.map Entry.key).Nodup) : ∀ e ∈ removeFirst b k, e.key ≠ k := by
  induction b with
  | nil => simp [removeFirst]
  | cons a rest ih =>
    rw [List.map_cons, List.nodup_cons] at hnd
    intro e he hek
    unfold removeFirst at he
    by_cases ha : a.key = k
    · rw [if_pos ha] at he
      exact hnd.1 (by rw [ha, ← hek]; exact List.mem_map_of_mem Entry.key he)
    · rw [if_neg ha] at he
      rcases List.mem_cons.1 he with rfl | he'
      · exact ha hek
      · exact ih hnd.2 e he' hek

lemma length_removeFirst {b : List Entry} {k : List Nat}
    (h : b.any (fun e => decide (e.key = k)) = true) :
    (removeFirst b k).length + 1 = b.length := by
  induction b with
  | nil => simp at h
  | cons a rest ih =>
    unfold removeFirst
    by_cases ha : a.key = k
    · simp [ha]
    · have h' : rest.any (fun e => decide (e.key = k)) = true := by
        simpa [ha] using h
      simp only [if_neg ha, List.length_cons, ih h']

lemma find?_eq_some_of_mem {b : List Entry} {k : List Nat} {e : Entry}
    (hnd : (b.map Entry.key).Nodup) (he : e ∈ b) (hk : e.key = k) :
    b.find? (fun x => decide (x.key = k)) = some e := by
  induction b with
  | nil => simp at he
  | cons a rest ih =>
    rw [List.map_cons, List.nodup_cons] at hnd
    by_cases ha : a.key = k
    · have hea : e = a := by
        rcases List.mem_cons.1 he with rfl | hmem
        · rfl
        · exact absurd (by rw [ha, ← hk]; exact List.mem_map_of_mem Entry.key hmem) hnd.1
      subst hea
      simp [List.find?_cons, ha]
    · rcases List.mem_cons.1 he with rfl | hmem
      · exact absurd hk ha
      · rw [List.find?_cons_of_neg _ (by simpa using ha)]
        exact ih hnd.2 hmem

lemma find?_eq_of_perm_nodup {l l' : List Entry} {k : List Nat}
    (hp : l.Perm l') (hnd : (l.map Entry.key).Nodup) :
    l.find? (fun e => decide (e.key = k)) = l'.find? (fun e => decide (e.key = k)) := by
  cases hfind : l'.find? (fun e => decide (e.key = k)) with
  | none =>
    rw [List.find?_eq_none] at hfind ⊢
    intro x hx
    exact hfind x (hp.mem_iff.1 hx)
  | some e =>
    have hmem : e ∈ l := hp.mem_iff.2 (List.mem_of_find?_eq_some hfind)
    have hkey : e.key = k := by
      have := List.find?_some hfind
      simpa using this
    exact find?_eq_some_of_mem hnd hmem hkey

lemma length_filter_key_le_one {l : List Entry} (h : (l.map Entry.key).Nodup)
    (k : List Nat) :
    (l.filter (fun e => decide (e.key = k))).length ≤ 1 := by
  induction l with
  | nil => simp
  | cons e rest ih =>
    rw [List.map_cons, List.nodup_cons] at h
    by_cases he : e.key = k
    · have hrest : rest.filter (fun e => decide (e.key = k)) = [] := by
        rw [List.filter_eq_nil_iff]
        intro x hx hpx
        have hxk : x.key = k := by simpa using hpx
        exact h.1 (by rw [he, ← hxk]; exact List.mem_map_of_mem Entry.key hx)
      simp [List.filter_cons, he, hrest]
    · simpa [List.filter_cons, he] using ih h.2

/-! ## Bucket-array lemmas -/

lemma getD_replicate_nil (n i : Nat) :
    (List.replicate n ([] : List Entry)).getD i [] = [] := by
  rw [List.getD_eq_getElem?_getD, List.getElem?_replicate]
  split <;> rfl

lemma getD_eq_getElem {arr : List (List Entry)} {i : Nat} (h : i < arr.length) :
    arr.getD i [] = arr[i] := by
  rw [List.getD_eq_getElem?_getD, List.getElem?_eq_getElem h]
  rfl

lemma sum_map_length_set {arr : List (List Entry)} {i : Nat} (hlt : i < arr.length)
    (b' : List Entry) :
    ((arr.set i b').map List.length).sum + (arr.getD i []).length
      = (arr.map List.length).sum + b'.length := by
  rw [getD_eq_getElem hlt, List.set_eq_take_cons_drop _ hlt]
  conv_rhs => rw [← List.take_append_drop i arr, List.drop_eq_getElem_cons hlt]
  simp only [List.map_append, List.sum_append, List.map_cons, List.sum_cons]
  omega

lemma placed_replicate (hash : List Nat → Nat) (n : Nat) :
    Placed hash (List.replicate n []) := by
  intro i e he
  rw [getD_replicate_nil] at he
  simp at he

lemma length_spliceEntry (hash : List Nat → Nat) (arr : List (List Entry)) (e : Entry) :
    (spliceEntry hash arr e).length = arr.length := by
  unfold spliceEntry
  simp

lemma placed_spliceEntry {hash : List Nat → Nat} {arr : List (List Entry)}
    (h : Placed hash arr) (hpos : 0 < arr.length) (e : Entry) :
    Placed hash (spliceEntry hash arr e) := by
  intro j x hx
  rw [length_spliceEntry]
  unfold spliceEntry at hx
  simp only at hx
  by_cases hj : j = hash e.key % 2 ^ 32 % arr.length
  · subst hj
    rw [List.getD_eq_getElem?_getD,
      List.getElem?_set_self (Nat.mod_lt _ hpos)] at hx
    simp only [Option.getD_some] at hx
    rcases List.mem_append.1 hx with hx' | hx'
    · exact h _ x hx'
    · rcases List.mem_singleton.1 hx' with rfl
      rfl
  · rw [List.getD_eq_getElem?_getD, List.getElem?_set_ne (fun a => hj a.symm)] at hx
    rw [← List.getD_eq_getElem?_getD] at hx
    exact h _ x hx

lemma placed_foldl_splice {hash : List Nat → Nat} (l : List Entry)
    {arr : List (List Entry)} (h : Placed hash arr) (hpos : 0 < arr.length) :
    Placed hash (l.foldl (spliceEntry hash) arr) := by
  induction l generalizing arr with
  | nil => exact h
  | cons e rest ih =>
    rw [List.foldl_cons]
    exact ih (placed_spliceEntry h hpos e)
      (by rw [length_spliceEntry]; exact hpos)

lemma length_foldl_splice (hash : List Nat → Nat) (l : List Entry)
    (arr : List (List Entry)) :
    (l.foldl (spliceEntry hash) arr).length = arr.length := by
  induction l generalizing arr with
  | nil => rfl
  | cons e rest ih =>
    rw [List.foldl_cons, ih, length_spliceEntry]

lemma flatten_spliceEntry_perm (hash : List Nat → Nat) (arr : List (List Entry))
    (e : Entry) (hpos : 0 < arr.length) :
    ((spliceEntry hash arr e).flatten).Perm (arr.flatten ++ [e]) := by
  have hlt : hash e.key % 2 ^ 32 % arr.length < arr.length := Nat.mod_lt _ hpos
  unfold spliceEntry
  simp only
  rw [getD_eq_getElem hlt, List.set_eq_take_cons_drop _ hlt]
  conv_rhs => rw [← List.take_append_drop (hash e.key % 2 ^ 32 % arr.length) arr,
    List.drop_eq_getElem_cons hlt]
  simp only [List.flatten_append, List.flatten_cons, List.append_assoc]
  refine List.Perm.append_left _ (List.Perm.append_left _ ?_)
  exact List.perm_append_comm.trans (by simp)

lemma flatten_foldl_splice_perm (hash : List Nat → Nat) (l : List Entry)
    {arr : List (List Entry)} (hpos : 0 < arr.length) :
    ((l.foldl (spliceEntry hash) arr).flatten).Perm (arr.flatten ++ l) := by
  induction l generalizing arr with
  | nil => simp
  | cons e rest ih =>
    rw [List.foldl_cons]
    refine (ih (by rw [length_spliceEntry]; exact hpos)).trans ?_
    have h2 := flatten_spliceEntry_perm hash arr e hpos
    have h3 : (arr.flatten ++ [e]) ++ rest = arr.flatten ++ (e :: rest) := by
      simp
    exact (h2.append_right rest).trans (by rw [h3])

lemma flatten_replicate_nil (n : Nat) :
    (List.replicate n ([] : List Entry)).flatten = [] := by
  induction n with
  | zero => rfl
  | succ m ih => rw [List.replicate_succ, List.flatten_cons, List.nil_append, ih]

/-! ## Table-level lemmas -/

lemma index_lt {t : Table} (hpos : 0 < t.array.length) (k : List Nat) :
    api_hashtable_index t k < t.array.length :=
  Nat.mod_lt _ hpos

lemma index_congr {t t' : Table} (hh : t'.hashfunc = t.hashfunc)
    (hl : t'.array.length = t.array.length) (k : List Nat) :
    api_hashtable_index t' k = api_hashtable_index t k := by
  unfold api_hashtable_index Table.digest32 Table.array_size
  rw [hh, hl]

lemma bucket_of_set {t t' : Table} (hh : t'.hashfunc = t.hashfunc) {i : Nat}
    {b' : List Entry} (ha : t'.array = t.array.set i b') (hi : i < t.array.length)
    (k : List Nat) :
    t'.bucket k = if api_hashtable_index t k = i then b' else t.bucket k := by
  have hl : t'.array.length = t.array.length := by rw [ha]; simp
  have hidx := index_congr hh hl k
  unfold Table.bucket
  rw [hidx, ha]
  by_cases h : api_hashtable_index t k = i
  · rw [if_pos h, h, List.getD_eq_getElem?_getD, List.getElem?_set_self hi]
    rfl
  · rw [if_neg h, List.getD_eq_getElem?_getD, List.getElem?_set_ne fun a => h a.symm,
      ← List.getD_eq_getElem?_getD]

lemma get_eq_map_find? (t : Table) (k : List Nat) :
    api_hashtable_get t k =
      ((t.bucket k).find? (fun e => decide (e.key = k))).map
        (fun e => (e.value, e.value.length)) := by
  unfold api_hashtable_get
  cases (t.bucket k).find? (fun e => decide (e.key = k)) <;> rfl

lemma get_congr_bucket {t t' : Table} (h : t'.bucket k = t.bucket k) :
    api_hashtable_get t' k = api_hashtable_get t k := by
  rw [get_eq_map_find?, get_eq_map_find?, h]

lemma contains_congr_bucket {t t' : Table} (h : t'.bucket k = t.bucket k) :
    api_hashtable_contains t' k = api_hashtable_contains t k := by
  unfold api_hashtable_contains
  rw [h]

lemma contains_eq_one_iff (t : Table) (k : List Nat) :
    api_hashtable_contains t k = 1 ↔
      (t.bucket k).any (fun e => decide (e.key = k)) = true := by
  unfold api_hashtable_contains
  split <;> simp_all

lemma contains_eq_zero_iff (t : Table) (k : List Nat) :
    api_hashtable_contains t k = 0 ↔
      (t.bucket k).any (fun e => decide (e.key = k)) = false := by
  unfold api_hashtable_contains
  split <;> simp_all

lemma contains_eq_one_of_get {t : Table} {k : List Nat} {r : List Nat × Nat}
    (h : api_hashtable_get t k = some r) : api_hashtable_contains t k = 1 := by
  rw [get_eq_map_find?] at h
  rw [contains_eq_one_iff, List.any_eq_true]
  cases hf : (t.bucket k).find? (fun e => decide (e.key = k)) with
  | none => rw [hf] at h; simp at h
  | some e =>
    have hp := List.find?_some hf
    exact ⟨e, List.mem_of_find?_eq_some hf, hp⟩

lemma contains_eq_zero_of_get {t : Table} {k : List Nat}
    (h : api_hashtable_get t k = none) : api_hashtable_contains t k = 0 := by
  rw [get_eq_map_find?] at h
  rw [contains_eq_zero_iff]
  cases hf : (t.bucket k).find? (fun e => decide (e.key = k)) with
  | none =>
    rw [List.find?_eq_none] at hf
    simp only [List.any_eq_false]
    intro e he
    exact hf e he
  | some e => rw [hf] at h; simp at h

lemma bucket_mem_entries {t : Table} (hpos : 0 < t.array.length) (k : List Nat) :
    ∀ e ∈ t.bucket k, e ∈ entries t := by
  intro e he
  unfold Table.bucket at he
  rw [getD_eq_getElem (index_lt hpos k)] at he
  exact List.mem_flatten_of_mem (List.getElem_mem _) he

/-- Under well-formedness, the keys of all live entries are pairwise
distinct across the whole table. -/
lemma WF.keys_nodup {t : Table} (h : WF t) :
    ((entries t).map Entry.key).Nodup := by
  unfold entries
  rw [List.map_flatten, List.nodup_flatten]
  constructor
  · intro l hl
    rcases List.mem_map.1 hl with ⟨b, hb, rfl⟩
    rcases List.mem_iff_getElem.1 hb with ⟨i, hi, rfl⟩
    have := h.nodup i
    rwa [getD_eq_getElem hi] at this
  · rw [List.pairwise_iff_getElem]
    intro i j hi hj hij
    simp only [List.length_map] at hi hj
    intro x hxi hxj
    rw [List.getElem_map] at hxi hxj
    rcases List.mem_map.1 hxi with ⟨e₁, he₁, hk₁⟩
    rcases List.mem_map.1 hxj with ⟨e₂, he₂, hk₂⟩
    have hp₁ := h.placed i e₁ (by rw [getD_eq_getElem hi]; exact he₁)
    have hp₂ := h.placed j e₂ (by rw [getD_eq_getElem hj]; exact he₂)
    rw [hk₁] at hp₁
    rw [hk₂] at hp₂
    omega

lemma bucket_keys_nodup_of_flatten {arr : List (List Entry)}
    (h : (arr.flatten.map Entry.key).Nodup) (i : Nat) :
    ((arr.getD i []).map Entry.key).Nodup := by
  by_cases hi : i < arr.length
  · rw [getD_eq_getElem hi]
    have hsub : List.Sublist arr[i] arr.flatten :=
      List.sublist_flatten_of_mem (List.getElem_mem hi)
    exact (hsub.map Entry.key).nodup h
  · rw [List.getD_eq_getElem?_getD, List.getElem?_eq_none (by omega)]
    simp

/-- The entries after a resize are a permutation of the entries before. -/
lemma entries_resize_perm {t : Table} (n : Nat) (hn : n ≠ 0) :
    (entries (api_hashtable_resize t n)).Perm (entries t) := by
  unfold api_hashtable_resize
  rw [if_neg hn]
  simp only [entries]
  have hpos : 0 < (List.replicate n ([] : List Entry)).length := by
    simp; omega
  have := flatten_foldl_splice_perm t.hashfunc t.array.flatten hpos
  rwa [flatten_replicate_nil, List.nil_append] at this

lemma resize_array_length {t : Table} (n : Nat) (hn : n ≠ 0) :
    (api_hashtable_resize t n).array.length = n := by
  unfold api_hashtable_resize
  rw [if_neg hn]
  simp only [length_foldl_splice, List.length_replicate]

lemma resize_hashfunc (t : Table) (n : Nat) :
    (api_hashtable_resize t n).hashfunc = t.hashfunc := by
  unfold api_hashtable_resize
  split <;> rfl

lemma resize_key_count (t : Table) (n : Nat) :
    (api_hashtable_resize t n).key_count = t.key_count := by
  unfold api_hashtable_resize
  split <;> rfl

lemma resize_flags (t : Table) (n : Nat) :
    (api_hashtable_resize t n).flags = t.flags := by
  unfold api_hashtable_resize
  split <;> rfl

lemma WF_resize {t : Table} (h : WF t) (n : Nat) :
    WF (api_hashtable_resize t n) := by
  by_cases hn : n = 0
  · unfold api_hashtable_resize
    rw [if_pos hn]
    exact h
  · have hlen := resize_array_length (t := t) n hn
    have hperm := entries_resize_perm (t := t) n hn
    have hkeys : ((entries (api_hashtable_resize t n)).map Entry.key).Nodup :=
      (hperm.map Entry.key).symm.nodup h.keys_nodup
    refine ⟨?_, ?_, ?_, ?_, ?_⟩
    · rw [hlen]; omega
    · have hplaced : Placed t.hashfunc (api_hashtable_resize t n).array := by
        unfold api_hashtable_resize
        rw [if_neg hn]
        exact placed_foldl_splice _ (placed_replicate _ _) (by simp; omega)
      rw [resize_hashfunc]
      exact hplaced
    · exact fun i => bucket_keys_nodup_of_flatten hkeys i
    · rw [resize_key_count, ← List.length_flatten]
      have : (entries (api_hashtable_resize t n)).length = (entries t).length :=
        hperm.length_eq
      unfold entries at this
      rw [this, List.length_flatten]
      exact h.count
    · unfold api_hashtable_resize
      rw [if_neg hn]
      simp only [length_foldl_splice, List.length_replicate]

lemma get_resize {t : Table} (h : WF t) {n : Nat} (hn : 0 < n) (k : List Nat) :
    api_hashtable_get (api_hashtable_resize t n) k = api_hashtable_get t k := by
  have hwf' := WF_resize h n
  have hn' : n ≠ 0 := by omega
  have hperm := entries_resize_perm (t := t) n hn'
  -- characterize both sides by the global entry list
  have key : ∀ (s : Table), WF s →
      (s.bucket k).find? (fun e => decide (e.key = k)) =
        (entries s).find? (fun e => decide (e.key = k)) := by
    intro s hs
    cases hf : (entries s).find? (fun e => decide (e.key = k)) with
    | none =>
      rw [List.find?_eq_none] at hf ⊢
      intro e he
      exact hf e (bucket_mem_entries hs.pos k e he)
    | some e =>
      have hmem : e ∈ entries s := List.mem_of_find?_eq_some hf
      have hkey : e.key = k := by simpa using List.find?_some hf
      -- e lies in the bucket of k
      rcases List.mem_flatten.1 hmem with ⟨b, hb, heb⟩
      rcases List.mem_iff_getElem.1 hb with ⟨i, hi, rfl⟩
      have hpl := hs.placed i e (by rw [getD_eq_getElem hi]; exact heb)
      have hbk : s.bucket k = s.array[i] := by
        unfold Table.bucket api_hashtable_index Table.digest32 Table.array_size
        rw [← hkey, hpl, getD_eq_getElem hi]
      rw [hbk]
      have hnd : (s.array[i].map Entry.key).Nodup := by
        have := hs.nodup i
        rwa [getD_eq_getElem hi] at this
      exact find?_eq_some_of_mem hnd heb hkey
  rw [get_eq_map_find?, get_eq_map_find?, key _ hwf', key _ h,
    find?_eq_of_perm_nodup hperm ((hperm.map Entry.key).symm.nodup h.keys_nodup)]

/-! ## Insert, remove, clear: well-formedness preservation -/

lemma bucket_set_index_self {t t' : Table} {k : List Nat}
    (hh : t'.hashfunc = t.hashfunc) {b' : List Entry}
    (ha : t'.array = t.array.set (api_hashtable_index t k) b')
    (hpos : 0 < t.array.length) :
    t'.bucket k = b' := by
  rw [bucket_of_set hh ha (index_lt hpos k) k, if_pos rfl]

lemma bucket_set_index_other {t t' : Table} {k : List Nat}
    (hh : t'.hashfunc = t.hashfunc) {b' : List Entry}
    (ha : t'.array = t.array.set (api_hashtable_index t k) b')
    (hpos : 0 < t.array.length) (k' : List Nat)
    (hne : api_hashtable_index t k' ≠ api_hashtable_index t k) :
    t'.bucket k' = t.bucket k' := by
  rw [bucket_of_set hh ha (index_lt hpos k) k', if_neg hne]

lemma length_bucket_le_key_count {t : Table} (h : WF t) (k : List Nat) :
    (t.bucket k).length ≤ t.key_count := by
  rw [h.count]
  show (t.array.getD (api_hashtable_index t k) []).length ≤ _
  rw [getD_eq_getElem (index_lt h.pos k)]
  exact List.single_le_sum (fun x _ => Nat.zero_le x) _
    (List.mem_map_of_mem List.length (List.getElem_mem _))

/-- Updating the bucket a key indexes to preserves well-formedness, provided
the new chain stays in place, keeps distinct keys, and the counters are
adjusted consistently. -/
lemma WF_set_bucket {t : Table} (h : WF t) {k : List Nat} {b' : List Entry}
    {t' : Table}
    (hh : t'.hashfunc = t.hashfunc)
    (ha : t'.array = t.array.set (api_hashtable_index t k) b')
    (hplaced : ∀ e ∈ b',
      t.hashfunc e.key % 2 ^ 32 % t.array.length = api_hashtable_index t k)
    (hnd : (b'.map Entry.key).Nodup)
    (hkc : t'.key_count + (t.bucket k).length = t.key_count + b'.length)
    (hclf : t'.current_load_factor = (t'.collisions : ℚ) / (t.array.length : ℚ)) :
    WF t' := by
  have hi := index_lt h.pos k
  have hl : t'.array.length = t.array.length := by rw [ha]; simp
  refine ⟨?_, ?_, ?_, ?_, ?_⟩
  · rw [hl]; exact h.pos
  · intro j e he
    rw [hh, hl]
    rw [ha] at he
    by_cases hj : j = api_hashtable_index t k
    · subst hj
      rw [List.getD_eq_getElem?_getD, List.getElem?_set_self hi] at he
      simp only [Option.getD_some] at he
      exact hplaced e he
    · rw [List.getD_eq_getElem?_getD, List.getElem?_set_ne fun a => hj a.symm,
        ← List.getD_eq_getElem?_getD] at he
      exact h.placed j e he
  · intro j
    rw [ha]
    by_cases hj : j = api_hashtable_index t k
    · subst hj
      rw [List.getD_eq_getElem?_getD, List.getElem?_set_self hi]
      exact hnd
    · rw [List.getD_eq_getElem?_getD, List.getElem?_set_ne fun a => hj a.symm,
        ← List.getD_eq_getElem?_getD]
      exact h.nodup j
  · have hsum := sum_map_length_set hi b'
    have hcnt := h.count
    have hbk : t.bucket k = t.array.getD (api_hashtable_index t k) [] := rfl
    rw [ha]
    rw [hbk] at hkc
    omega
  · rw [hclf, hl]

lemma insertRaw_hashfunc (t : Table) (k v : List Nat) :
    (insertRaw t k v).hashfunc = t.hashfunc := by
  unfold insertRaw; split <;> rfl

lemma insertRaw_flags (t : Table) (k v : List Nat) :
    (insertRaw t k v).flags = t.flags := by
  unfold insertRaw; split <;> rfl

lemma insertRaw_max_load_factor (t : Table) (k v : List Nat) :
    (insertRaw t k v).max_load_factor = t.max_load_factor := by
  unfold insertRaw; split <;> rfl

lemma insertRaw_array_length (t : Table) (k v : List Nat) :
    (insertRaw t k v).array.length = t.array.length := by
  unfold insertRaw; split <;> simp

lemma WF_insertRaw {t : Table} (h : WF t) (k v : List Nat) :
    WF (insertRaw t k v) := by
  unfold insertRaw
  by_cases hemp : (t.bucket k).isEmpty
  · rw [if_pos hemp]
    have hb : t.bucket k = [] := List.isEmpty_iff.1 hemp
    refine WF_set_bucket h rfl rfl ?_ ?_ ?_ ?_
    · intro e he
      rcases List.mem_singleton.1 he with rfl
      rfl
    · simp
    · rw [hb]; simp
    · exact h.clf
  · rw [if_neg hemp]
    by_cases hany : (t.bucket k).any (fun e => decide (e.key = k)) = true
    · rw [if_pos hany]
      refine WF_set_bucket h rfl rfl ?_ ?_ ?_ ?_
      · intro e he
        have hkey : e.key ∈ (replaceValue (t.bucket k) k v).map Entry.key :=
          List.mem_map_of_mem Entry.key he
        rw [map_key_replaceValue] at hkey
        rcases List.mem_map.1 hkey with ⟨e₀, he₀, hk₀⟩
        rw [← hk₀]
        exact h.placed _ e₀ he₀
      · rw [map_key_replaceValue]
        exact h.nodup _
      · simp [hany, length_replaceValue]
      · rfl
    · rw [if_neg hany]
      have hany' : (t.bucket k).any (fun e => decide (e.key = k)) = false := by
        simpa using hany
      have hnk : ∀ e ∈ t.bucket k, ¬ e.key = k := by
        intro e he
        have := List.any_eq_false.1 hany' e he
        simpa using this
      refine WF_set_bucket h rfl rfl ?_ ?_ ?_ ?_
      · intro e he
        rcases List.mem_append.1 he with he' | he'
        · exact h.placed _ e he'
        · rcases List.mem_singleton.1 he' with rfl
          rfl
      · rw [List.map_append]
        rw [List.nodup_append]
        refine ⟨h.nodup _, by simp, ?_⟩
        intro x hx hx'
        rcases List.mem_map.1 hx with ⟨e₀, he₀, hk₀⟩
        simp only [List.map_cons, List.map_nil, List.mem_singleton] at hx'
        exact hnk e₀ he₀ (by rw [hk₀, hx'])
      · simp [hany]
        omega
      · rfl

lemma WF_insert {t : Table} (h : WF t) (k v : List Nat) :
    WF (api_hashtable_insert t k v) := by
  unfold api_hashtable_insert
  split
  · exact WF_resize (WF_insertRaw h k v) _
  · exact WF_insertRaw h k v

lemma WF_remove {t : Table} (h : WF t) (k : List Nat) :
    WF (api_hashtable_remove t k) := by
  unfold api_hashtable_remove
  split
  · refine WF_set_bucket h rfl rfl ?_ ?_ ?_ ?_
    · intro e he
      exact h.placed _ e (mem_of_mem_removeFirst he)
    · exact (((removeFirst_sublist _ _).map Entry.key).nodup (h.nodup _))
    · rename_i hany
      have hlb := length_removeFirst hany
      have hble := length_bucket_le_key_count h k
      simp only []
      omega
    · exact h.clf
  · exact h

lemma sum_map_length_replicate_nil (n : Nat) :
    ((List.replicate n ([] : List Entry)).map List.length).sum = 0 := by
  induction n with
  | zero => rfl
  | succ m ih =>
    rw [List.replicate_succ, List.map_cons, List.sum_cons, ih]
    rfl

lemma bucket_clear (t : Table) (k : List Nat) :
    (api_hashtable_clear t).bucket k = [] := by
  unfold api_hashtable_clear Table.bucket
  exact getD_replicate_nil _ _

lemma WF_clear {t : Table} (h : WF t) : WF (api_hashtable_clear t) := by
  refine ⟨?_, ?_, ?_, ?_, ?_⟩
  · simpa [api_hashtable_clear] using h.pos
  · intro j e he
    rw [show (api_hashtable_clear t).array = List.replicate t.array.length [] from rfl,
      getD_replicate_nil] at he
    simp at he
  · intro j
    rw [show (api_hashtable_clear t).array = List.replicate t.array.length [] from rfl,
      getD_replicate_nil]
    simp
  · rw [show (api_hashtable_clear t).array = List.replicate t.array.length [] from rfl,
      sum_map_length_replicate_nil]
    rfl
  · show (0 : ℚ) = ((0 : Nat) : ℚ) / _
    simp

lemma WF_init (hash : List Nat → Nat) (flags : Nat) (mlf : ℚ) :
    WF (api_hashtable_init hash flags mlf) := by
  refine ⟨?_, ?_, ?_, ?_, ?_⟩
  · show 0 < (List.replicate HT_INITIAL_SIZE ([] : List Entry)).length
    rw [List.length_replicate]
    decide
  · intro j e he
    rw [show (api_hashtable_init hash flags mlf).array
        = List.replicate HT_INITIAL_SIZE [] from rfl, getD_replicate_nil] at he
    simp at he
  · intro j
    rw [show (api_hashtable_init hash flags mlf).array
        = List.replicate HT_INITIAL_SIZE [] from rfl, getD_replicate_nil]
    simp
  · rw [show (api_hashtable_init hash flags mlf).array
        = List.replicate HT_INITIAL_SIZE [] from rfl, sum_map_length_replicate_nil]
    rfl
  · show (0 : ℚ) = ((0 : Nat) : ℚ) / _
    simp

/-! ## Lookup behavior of the operations -/

lemma bucket_mk_set {t : Table} (k : List Nat) {b' : List Entry} {kc c fl : Nat}
    {mlf clf : ℚ} (hpos : 0 < t.array.length) (k' : List Nat) :
    (Table.mk t.hashfunc (t.array.set (api_hashtable_index t k) b') kc c fl
        mlf clf).bucket k'
      = if api_hashtable_index t k' = api_hashtable_index t k then b'
        else t.bucket k' :=
  @bucket_of_set t
    (Table.mk t.hashfunc (t.array.set (api_hashtable_index t k) b') kc c fl
      mlf clf)
    rfl (api_hashtable_index t k) b' rfl (index_lt hpos k) k'

lemma bucket_insertRaw_eqidx {t : Table} (hpos : 0 < t.array.length)
    {k k' : List Nat} (v : List Nat)
    (hidx : api_hashtable_index t k' = api_hashtable_index t k) :
    (insertRaw t k v).bucket k' =
      if (t.bucket k).isEmpty then [⟨k, v⟩]
      else if (t.bucket k).any (fun e => decide (e.key = k)) then
        replaceValue (t.bucket k) k v
      else t.bucket k ++ [⟨k, v⟩] := by
  unfold insertRaw
  by_cases hemp : (t.bucket k).isEmpty
  · rw [if_pos hemp, if_pos hemp, bucket_mk_set (t := t) k hpos k', if_pos hidx]
  · rw [if_neg hemp, if_neg hemp, bucket_mk_set (t := t) k hpos k', if_pos hidx]

lemma bucket_insertRaw_other {t : Table} (hpos : 0 < t.array.length)
    {k k' : List Nat} (v : List Nat)
    (hidx : api_hashtable_index t k' ≠ api_hashtable_index t k) :
    (insertRaw t k v).bucket k' = t.bucket k' := by
  unfold insertRaw
  split
  · rw [bucket_mk_set (t := t) k hpos k', if_neg hidx]
  · rw [bucket_mk_set (t := t) k hpos k', if_neg hidx]

lemma get_insertRaw_self {t : Table} (h : WF t) (k v : List Nat) :
    api_hashtable_get (insertRaw t k v) k = some (v, v.length) := by
  rw [get_eq_map_find?, bucket_insertRaw_eqidx h.pos v rfl]
  by_cases hemp : (t.bucket k).isEmpty
  · rw [if_pos hemp]
    simp
  · rw [if_neg hemp]
    by_cases hany : (t.bucket k).any (fun e => decide (e.key = k)) = true
    · rw [if_pos hany, find?_replaceValue_self hany]
      rfl
    · rw [if_neg hany, List.find?_append]
      have hfb : (t.bucket k).find? (fun e => decide (e.key = k)) = none := by
        rw [List.find?_eq_none]
        intro x hx
        have hany' : (t.bucket k).any (fun e => decide (e.key = k)) = false := by
          simpa using hany
        simpa using List.any_eq_false.1 hany' x hx
      rw [hfb]
      simp

lemma get_insert_self {t : Table} (h : WF t) (k v : List Nat) :
    api_hashtable_get (api_hashtable_insert t k v) k = some (v, v.length) := by
  unfold api_hashtable_insert
  split
  · have hn : (0 : Nat) < 2 * (insertRaw t k v).array_size := by
      have := h.pos
      unfold Table.array_size
      rw [insertRaw_array_length]
      omega
    rw [get_resize (WF_insertRaw h k v) hn k, get_insertRaw_self h k v]
  · exact get_insertRaw_self h k v

lemma get_insertRaw_ne {t : Table} (h : WF t) {k k' : List Nat} (v : List Nat)
    (hne : k' ≠ k) :
    api_hashtable_get (insertRaw t k v) k' = api_hashtable_get t k' := by
  by_cases hidx : api_hashtable_index t k' = api_hashtable_index t k
  · rw [get_eq_map_find?, get_eq_map_find?, bucket_insertRaw_eqidx h.pos v hidx]
    have hbb : t.bucket k' = t.bucket k := by
      unfold Table.bucket
      rw [hidx]
    rw [hbb]
    by_cases hemp : (t.bucket k).isEmpty
    · rw [if_pos hemp, List.isEmpty_iff.1 hemp]
      have hf : ([(⟨k, v⟩ : Entry)] : List Entry).find?
          (fun e => decide (e.key = k')) = none := by
        simp [Ne.symm hne]
      rw [hf]
      rfl
    · rw [if_neg hemp]
      by_cases hany : (t.bucket k).any (fun e => decide (e.key = k)) = true
      · rw [if_pos hany, find?_replaceValue_ne (Ne.symm hne)]
      · rw [if_neg hany, List.find?_append]
        have hf : ([(⟨k, v⟩ : Entry)] : List Entry).find?
            (fun e => decide (e.key = k')) = none := by
          simp [Ne.symm hne]
        rw [hf, Option.or_none]
  · rw [get_eq_map_find?, get_eq_map_find?, bucket_insertRaw_other h.pos v hidx]

lemma get_insert_ne {t : Table} (h : WF t) {k k' : List Nat} (v : List Nat)
    (hne : k' ≠ k) :
    api_hashtable_get (api_hashtable_insert t k v) k' = api_hashtable_get t k' := by
  unfold api_hashtable_insert
  split
  · have hn : (0 : Nat) < 2 * (insertRaw t k v).array_size := by
      have := h.pos
      unfold Table.array_size
      rw [insertRaw_array_length]
      omega
    rw [get_resize (WF_insertRaw h k v) hn k', get_insertRaw_ne h v hne]
  · exact get_insertRaw_ne h v hne

lemma bucket_remove_eqidx {t : Table} (hpos : 0 < t.array.length)
    {k k' : List Nat}
    (hidx : api_hashtable_index t k' = api_hashtable_index t k) :
    (api_hashtable_remove t k).bucket k' =
      if (t.bucket k).any (fun e => decide (e.key = k)) then
        removeFirst (t.bucket k) k
      else t.bucket k' := by
  unfold api_hashtable_remove
  by_cases hany : (t.bucket k).any (fun e => decide (e.key = k)) = true
  · rw [if_pos hany, if_pos hany, bucket_mk_set (t := t) k hpos k', if_pos hidx]
  · rw [if_neg hany, if_neg hany]

lemma bucket_remove_other {t : Table} (hpos : 0 < t.array.length)
    {k k' : List Nat}
    (hidx : api_hashtable_index t k' ≠ api_hashtable_index t k) :
    (api_hashtable_remove t k).bucket k' = t.bucket k' := by
  unfold api_hashtable_remove
  split
  · rw [bucket_mk_set (t := t) k hpos k', if_neg hidx]
  · rfl

lemma get_remove_self {t : Table} (h : WF t) (k : List Nat) :
    api_hashtable_get (api_hashtable_remove t k) k = none := by
  rw [get_eq_map_find?, bucket_remove_eqidx h.pos rfl]
  by_cases hany : (t.bucket k).any (fun e => decide (e.key = k)) = true
  · rw [if_pos hany]
    have hf : (removeFirst (t.bucket k) k).find?
        (fun e => decide (e.key = k)) = none := by
      rw [List.find?_eq_none]
      intro e he
      simpa using key_ne_of_mem_removeFirst (h.nodup _) e he
    rw [hf]
    rfl
  · rw [if_neg hany]
    have hf : (t.bucket k).find? (fun e => decide (e.key = k)) = none := by
      rw [List.find?_eq_none]
      intro e he
      have hany' : (t.bucket k).any (fun e => decide (e.key = k)) = false := by
        simpa using hany
      simpa using List.any_eq_false.1 hany' e he
    rw [hf]
    rfl

lemma get_remove_ne {t : Table} (h : WF t) {k k' : List Nat} (hne : k' ≠ k) :
    api_hashtable_get (api_hashtable_remove t k) k' = api_hashtable_get t k' := by
  by_cases hidx : api_hashtable_index t k' = api_hashtable_index t k
  · rw [get_eq_map_find?, get_eq_map_find?, bucket_remove_eqidx h.pos hidx]
    by_cases hany : (t.bucket k).any (fun e => decide (e.key = k)) = true
    · have hbb : t.bucket k' = t.bucket k := by
        unfold Table.bucket
        rw [hidx]
      rw [if_pos hany, hbb, find?_removeFirst_ne (Ne.symm hne)]
    · rw [if_neg hany]
  · rw [get_eq_map_find?, get_eq_map_find?, bucket_remove_other h.pos hidx]

lemma remove_of_not_contains {t : Table} {k : List Nat}
    (h : api_hashtable_contains t k = 0) : api_hashtable_remove t k = t := by
  have hany := (contains_eq_zero_iff t k).1 h
  unfold api_hashtable_remove
  rw [if_neg (by simp [hany])]

lemma get_clear (t : Table) (k : List Nat) :
    api_hashtable_get (api_hashtable_clear t) k = none := by
  rw [get_eq_map_find?, bucket_clear]
  rfl

/-! ## Operation sequences -/

lemma WF_applyOp {t : Table} (h : WF t) (o : Op) : WF (applyOp t o) := by
  cases o with
  | ins k v => exact WF_insert h k v
  | rem k => exact WF_remove h k
  | clr => exact WF_clear h
  | rsz n => exact WF_resize h n

lemma get_applyOp_untouched {t : Table} (h : WF t) {o : Op} {k : List Nat}
    (ho : ¬ touches k o) :
    api_hashtable_get (applyOp t o) k = api_hashtable_get t k := by
  cases o with
  | ins k' v =>
    have hne : k ≠ k' := fun hh => ho (show touches k (.ins k' v) from hh.symm)
    exact get_insert_ne h v hne
  | rem k' =>
    have hne : k ≠ k' := fun hh => ho (show touches k (.rem k') from hh.symm)
    exact get_remove_ne h hne
  | clr => exact absurd trivial ho
  | rsz n =>
    by_cases hn : n = 0
    · show api_hashtable_get (api_hashtable_resize t n) k = _
      unfold api_hashtable_resize
      rw [if_pos hn]
    · exact get_resize h (Nat.pos_of_ne_zero hn) k

lemma WF_applyOps {t : Table} (h : WF t) (ops : List Op) :
    WF (applyOps t ops) := by
  induction ops generalizing t with
  | nil => exact h
  | cons o rest ih => exact ih (WF_applyOp h o)

lemma get_applyOps_untouched {t : Table} (h : WF t) {ops : List Op}
    {k : List Nat} (hops : ∀ o ∈ ops, ¬ touches k o) :
    api_hashtable_get (applyOps t ops) k = api_hashtable_get t k := by
  induction ops generalizing t with
  | nil => rfl
  | cons o rest ih =>
    rw [show applyOps t (o :: rest) = applyOps (applyOp t o) rest from rfl,
      ih (WF_applyOp h o) (fun o' ho' => hops o' (List.mem_cons_of_mem o ho')),
      get_applyOp_untouched h (hops o (List.mem_cons_self o rest))]

/-! ## Counter and capacity lemmas -/

lemma insert_flags (t : Table) (k v : List Nat) :
    (api_hashtable_insert t k v).flags = t.flags := by
  unfold api_hashtable_insert
  split
  · rw [resize_flags, insertRaw_flags]
  · rw [insertRaw_flags]

lemma insert_noAutoresize (t : Table) (k v : List Nat) :
    (api_hashtable_insert t k v).noAutoresize = t.noAutoresize := by
  unfold Table.noAutoresize
  rw [insert_flags]

lemma insert_array_length_of_noAutoresize {t : Table}
    (hres : t.noAutoresize = true) (k v : List Nat) :
    (api_hashtable_insert t k v).array.length = t.array.length := by
  unfold api_hashtable_insert
  rw [if_neg]
  · exact insertRaw_array_length t k v
  · intro hc
    have h2 := hc.2.1
    rw [hres] at h2
    cases h2

lemma insert_key_count_of_contains {t : Table} {k : List Nat}
    (h : api_hashtable_contains t k = 1) (v : List Nat) :
    (api_hashtable_insert t k v).key_count = t.key_count := by
  have hany := (contains_eq_one_iff t k).1 h
  have hkc : (insertRaw t k v).key_count = t.key_count := by
    unfold insertRaw
    rw [if_neg (by
      intro hemp
      rw [List.isEmpty_iff.1 hemp] at hany
      simp at hany)]
    simp [hany]
  unfold api_hashtable_insert
  split
  · rw [resize_key_count, hkc]
  · exact hkc

lemma insert_collisions_of_not_triggered {t : Table} {k : List Nat}
    (hnt : ¬ resizeTriggered t k) (v : List Nat) :
    (api_hashtable_insert t k v).collisions
      = if (t.bucket k).isEmpty then t.collisions else t.collisions + 1 := by
  unfold api_hashtable_insert
  rw [if_neg hnt]
  unfold insertRaw
  by_cases hemp : (t.bucket k).isEmpty
  · rw [if_pos hemp, if_pos hemp]
  · rw [if_neg hemp, if_neg hemp]

lemma insert_array_length_triggered {t : Table} {k : List Nat}
    (hpos : 0 < t.array.length) (htr : resizeTriggered t k) (v : List Nat) :
    (api_hashtable_insert t k v).array.length = 2 * t.array.length := by
  unfold api_hashtable_insert
  rw [if_pos htr, resize_array_length]
  · unfold Table.array_size
    rw [insertRaw_array_length]
  · unfold Table.array_size
    rw [insertRaw_array_length]
    omega

lemma remove_key_count_of_contains {t : Table} (h : WF t) {k : List Nat}
    (hc : api_hashtable_contains t k = 1) :
    (api_hashtable_remove t k).key_count + 1 = t.key_count := by
  have hany := (contains_eq_one_iff t k).1 hc
  have hble := length_bucket_le_key_count h k
  have hlen : 0 < (t.bucket k).length := by
    cases hb : t.bucket k with
    | nil => rw [hb] at hany; simp at hany
    | cons a l => simp [hb]
  unfold api_hashtable_remove
  rw [if_pos hany]
  simp only []
  omega

lemma WF.countersOk' {t : Table} (h : WF t) : countersOk t :=
  ⟨h.pos, h.clf⟩

lemma index_resize {t : Table} (n : Nat) (hn : n ≠ 0) (k : List Nat) :
    api_hashtable_index (api_hashtable_resize t n) k = t.digest32 k % n := by
  unfold api_hashtable_index Table.digest32 Table.array_size
  rw [resize_hashfunc, resize_array_length n hn]

lemma resize_collisions_independent (t : Table) (n : Nat) (hn : n ≠ 0) (c : Nat) :
    (api_hashtable_resize { t with collisions := c } n).collisions
      = (api_hashtable_resize t n).collisions := by
  unfold api_hashtable_resize
  rw [if_neg hn, if_neg hn]

/-! ## Claim theorems -/

/-- C1: for every key `k` and value `v`, after `insert(k, key_size, v,
value_size)` succeeds and until `k` is removed or overwritten (no later
operation touches `k`), `get(k, key_size)` returns a value byte-identical
to `v` together with its size, and `contains(k, key_size)` returns 1. -/
theorem C1_round_trip (t : Table) (k v : List Nat) (ops : List Op)
    (hwf : WF t) (hops : ∀ o ∈ ops, ¬ touches k o) :
    api_hashtable_get (applyOps (api_hashtable_insert t k v) ops) k
        = some (v, v.length) ∧
    api_hashtable_contains (applyOps (api_hashtable_insert t k v) ops) k = 1 := by
  have hget : api_hashtable_get (applyOps (api_hashtable_insert t k v) ops) k
      = some (v, v.length) := by
    rw [get_applyOps_untouched (WF_insert hwf k v) hops, get_insert_self hwf k v]
  exact ⟨hget, contains_eq_one_of_get hget⟩

theorem C1_round_trip_witness :
    api_hashtable_get (applyOps (api_hashtable_insert tEx [1] [2, 3])
        [Op.ins [4] [5], Op.rsz 8, Op.rem [4]]) [1] = some ([2, 3], 2) ∧
    api_hashtable_contains (applyOps (api_hashtable_insert tEx [1] [2, 3])
        [Op.ins [4] [5], Op.rsz 8, Op.rem [4]]) [1] = 1 :=
  C1_round_trip tEx [1] [2, 3] [Op.ins [4] [5], Op.rsz 8, Op.rem [4]]
    (WF_init sumHash HT_NONE 1)
    (by intro o ho
        fin_cases ho <;> simp [touches])

/-- C2: inserting the same key twice with values `v1` then `v2` leaves
`get(k)` equal to `v2`, leaves `key_count` unchanged from its value before
the second insert, and after any insert at most one entry with any given
key exists in the table. -/
theorem C2_overwrite (t : Table) (k v1 v2 : List Nat) (hwf : WF t) :
    api_hashtable_get
        (api_hashtable_insert (api_hashtable_insert t k v1) k v2) k
      = some (v2, v2.length) ∧
    (api_hashtable_insert (api_hashtable_insert t k v1) k v2).key_count
      = (api_hashtable_insert t k v1).key_count ∧
    ∀ k', ((entries (api_hashtable_insert (api_hashtable_insert t k v1) k v2)).filter
        (fun e => decide (e.key = k'))).length ≤ 1 := by
  have hwf1 := WF_insert hwf k v1
  refine ⟨get_insert_self hwf1 k v2, ?_, ?_⟩
  · exact insert_key_count_of_contains
      (contains_eq_one_of_get (get_insert_self hwf k v1)) v2
  · intro k'
    exact length_filter_key_le_one (WF_insert hwf1 k v2).keys_nodup k'

theorem C2_overwrite_witness :
    api_hashtable_get
        (api_hashtable_insert (api_hashtable_insert tEx [1] [5]) [1] [6, 7]) [1]
      = some ([6, 7], 2) ∧
    (api_hashtable_insert (api_hashtable_insert tEx [1] [5]) [1] [6, 7]).key_count
      = (api_hashtable_insert tEx [1] [5]).key_count ∧
    ((entries (api_hashtable_insert (api_hashtable_insert tEx [1] [5]) [1] [6, 7])).filter
        (fun e => decide (e.key = [1]))).length ≤ 1 :=
  have h := C2_overwrite tEx [1] [5] [6, 7] (WF_init sumHash HT_NONE 1)
  ⟨h.1, h.2.1, h.2.2 [1]⟩

/-- C3: after `remove(k, key_size)`, `contains(k)` is 0 and `get(k)`
reports absence; `key_count` decreases by exactly one if `k` was present,
and the table is left untouched (a no-op, not an error) if `k` was
absent. -/
theorem C3_remove (t : Table) (k : List Nat) (hwf : WF t) :
    api_hashtable_contains (api_hashtable_remove t k) k = 0 ∧
    api_hashtable_get (api_hashtable_remove t k) k = none ∧
    (api_hashtable_contains t k = 1 →
      (api_hashtable_remove t k).key_count + 1 = t.key_count) ∧
    (api_hashtable_contains t k = 0 → api_hashtable_remove t k = t) := by
  have hnone := get_remove_self hwf k
  exact ⟨contains_eq_zero_of_get hnone, hnone,
    fun hc => remove_key_count_of_contains hwf hc,
    fun hc => remove_of_not_contains hc⟩

theorem C3_remove_witness :
    api_hashtable_contains
        (api_hashtable_remove (api_hashtable_insert tEx [1] [2]) [1]) [1] = 0 ∧
    ((api_hashtable_remove (api_hashtable_insert tEx [1] [2]) [1]).key_count + 1
      = (api_hashtable_insert tEx [1] [2]).key_count) ∧
    api_hashtable_remove (api_hashtable_insert tEx [1] [2]) [9]
      = api_hashtable_insert tEx [1] [2] :=
  have hwf1 := WF_insert (WF_init sumHash HT_NONE 1) ([1] : List Nat) [2]
  ⟨(C3_remove (api_hashtable_insert tEx [1] [2]) [1] hwf1).1,
   (C3_remove (api_hashtable_insert tEx [1] [2]) [1] hwf1).2.2.1 (by decide),
   (C3_remove (api_hashtable_insert tEx [1] [2]) [9] hwf1).2.2.2 (by decide)⟩

/-- C4: after `clear(table)`, `size(table)` is 0, `contains(k)` is 0 for
every key, `key_count`, `collisions` and `current_load_factor` are all
zero, and `array_size` is unchanged (capacity is not shrunk). -/
theorem C4_clear (t : Table) :
    api_hashtable_size (api_hashtable_clear t) = 0 ∧
    (∀ k, api_hashtable_contains (api_hashtable_clear t) k = 0) ∧
    (api_hashtable_clear t).key_count = 0 ∧
    (api_hashtable_clear t).collisions = 0 ∧
    (api_hashtable_clear t).current_load_factor = 0 ∧
    (api_hashtable_clear t).array_size = t.array_size := by
  refine ⟨rfl, fun k => contains_eq_zero_of_get (get_clear t k), rfl, rfl, rfl, ?_⟩
  unfold api_hashtable_clear Table.array_size
  simp

/-- C5: with `HT_NO_AUTORESIZE` set, no sequence of inserts ever changes
`array_size`; with it clear, an insert whose collision pushes the load
factor over `max_load_factor` strictly increases `array_size`. -/
theorem C5_autoresize (t : Table) (k v : List Nat)
    (kvs : List (List Nat × List Nat)) (hwf : WF t) :
    (t.noAutoresize = true →
      (kvs.foldl (fun s p => api_hashtable_insert s p.1 p.2) t).array_size
        = t.array_size) ∧
    (t.noAutoresize = false → (t.bucket k).isEmpty = false →
      t.max_load_factor < ((t.collisions + 1 : Nat) : ℚ) / (t.array_size : ℚ) →
      t.array_size < (api_hashtable_insert t k v).array_size) := by
  constructor
  · induction kvs generalizing t with
    | nil => intro hres; rfl
    | cons p rest ih =>
      intro hres
      rw [List.foldl_cons,
        ih (api_hashtable_insert t p.1 p.2) (WF_insert hwf p.1 p.2)
          (by rw [insert_noAutoresize]; exact hres)]
      unfold Table.array_size
      rw [insert_array_length_of_noAutoresize hres]
  · intro hres hemp hlt
    have htr : resizeTriggered t k := ⟨hemp, hres, hlt⟩
    have hgrow := insert_array_length_triggered hwf.pos htr v
    have hpos := hwf.pos
    unfold Table.array_size
    omega

theorem C5_autoresize_witness :
    (([([1], [2]), ([1, 0], [3])] :
        List (List Nat × List Nat)).foldl
        (fun s p => api_hashtable_insert s p.1 p.2)
        (api_hashtable_init sumHash HT_NO_AUTORESIZE 0)).array_size
      = (api_hashtable_init sumHash HT_NO_AUTORESIZE 0).array_size ∧
    (api_hashtable_insert (api_hashtable_init sumHash HT_NONE 0) [1] [2]).array_size
      < (api_hashtable_insert
          (api_hashtable_insert (api_hashtable_init sumHash HT_NONE 0) [1] [2])
          [1, 0] [9]).array_size :=
  ⟨(C5_autoresize (api_hashtable_init sumHash HT_NO_AUTORESIZE 0) [1] [2]
      [([1], [2]), ([1, 0], [3])]
      (WF_init sumHash HT_NO_AUTORESIZE 0)).1 (by decide),
   (C5_autoresize
      (api_hashtable_insert (api_hashtable_init sumHash HT_NONE 0) [1] [2])
      [1, 0] [9] []
      (WF_insert (WF_init sumHash HT_NONE 0) [1] [2])).2
      (by decide) (by decide)
      (by
        show (0 : ℚ) < ((0 + 1 : Nat) : ℚ) / ((64 : Nat) : ℚ)
        norm_num)⟩

/-- C6: after `resize(table, n)` with `n > 0`, every key previously
retrievable via `get` still yields its original value, `index(table, k)`
equals `k`'s digest mod `n` for every `k`, `array_size` equals `n`, and
the `collisions` counter of the result does not depend on its value before
the resize. -/
theorem C6_resize (t : Table) (n : Nat) (hwf : WF t) (hn : 0 < n) :
    (∀ k r, api_hashtable_get t k = some r →
      api_hashtable_get (api_hashtable_resize t n) k = some r) ∧
    (∀ k, api_hashtable_index (api_hashtable_resize t n) k
      = t.digest32 k % n) ∧
    (api_hashtable_resize t n).array_size = n ∧
    (∀ c, (api_hashtable_resize { t with collisions := c } n).collisions
      = (api_hashtable_resize t n).collisions) := by
  have hn' : n ≠ 0 := by omega
  refine ⟨?_, fun k => index_resize n hn' k, ?_,
    fun c => resize_collisions_independent t n hn' c⟩
  · intro k r hr
    rw [get_resize hwf hn k, hr]
  · unfold Table.array_size
    exact resize_array_length n hn'

theorem C6_resize_witness :
    (api_hashtable_get
        (api_hashtable_resize (api_hashtable_insert tEx [1] [2]) 8) [1]
      = some ([2], 1)) ∧
    (api_hashtable_index
        (api_hashtable_resize (api_hashtable_insert tEx [1] [2]) 8) [1]
      = (api_hashtable_insert tEx [1] [2]).digest32 [1] % 8) ∧
    (api_hashtable_resize (api_hashtable_insert tEx [1] [2]) 8).array_size = 8 ∧
    ((api_hashtable_resize
        { api_hashtable_insert tEx [1] [2] with collisions := 5 } 8).collisions
      = (api_hashtable_resize (api_hashtable_insert tEx [1] [2]) 8).collisions) :=
  have h := C6_resize (api_hashtable_insert tEx [1] [2]) 8
    (WF_insert (WF_init sumHash HT_NONE 1) [1] [2]) (by decide)
  ⟨h.1 [1] ([2], 1) (by decide), h.2.1 [1], h.2.2.1, h.2.2.2 5⟩

/-- C7: `get` and `contains` are read-only: running either query returns
the table state unchanged, so `key_count`, `collisions`, `array_size`,
`current_load_factor` and every entry are untouched. -/
theorem C7_readonly (t : Table) (q : Query) :
    (runQuery t q).1 = t ∧
    (runQuery t q).1.key_count = t.key_count ∧
    (runQuery t q).1.collisions = t.collisions ∧
    (runQuery t q).1.array_size = t.array_size ∧
    (runQuery t q).1.current_load_factor = t.current_load_factor := by
  cases q <;> exact ⟨rfl, rfl, rfl, rfl, rfl⟩

/-- C8: when the autoresize policy does not fire, an insert increments
`collisions` by exactly one iff the target bucket was non-empty before the
insertion; and after insert, remove, clear, resize and init alike the
state satisfies `countersOk`: `array_size` is strictly positive and the
stored `current_load_factor` equals `collisions / array_size` (never
stale). -/
theorem C8_counters (t : Table) (k v : List Nat) (n : Nat)
    (hash : List Nat → Nat) (flags : Nat) (mlf : ℚ) (hwf : WF t) :
    (¬ resizeTriggered t k →
      ((api_hashtable_insert t k v).collisions = t.collisions + 1 ↔
        (t.bucket k).isEmpty = false)) ∧
    countersOk (api_hashtable_insert t k v) ∧
    countersOk (api_hashtable_remove t k) ∧
    countersOk (api_hashtable_clear t) ∧
    countersOk (api_hashtable_resize t n) ∧
    countersOk (api_hashtable_init hash flags mlf) := by
  refine ⟨?_, (WF_insert hwf k v).countersOk', (WF_remove hwf k).countersOk',
    (WF_clear hwf).countersOk', (WF_resize hwf n).countersOk',
    (WF_init hash flags mlf).countersOk'⟩
  intro hnt
  rw [insert_collisions_of_not_triggered hnt v]
  by_cases hemp : (t.bucket k).isEmpty
  · rw [if_pos hemp]
    simp only [hemp]
    constructor
    · intro hcc
      exact absurd hcc (by omega)
    · intro hff
      cases hff
  · rw [if_neg hemp]
    simp [hemp]

theorem C8_counters_witness :
    ((api_hashtable_insert tEx [1] [2]).collisions = tEx.collisions + 1 ↔
      (tEx.bucket [1]).isEmpty = false) ∧
    countersOk (api_hashtable_insert tEx [1] [2]) ∧
    countersOk (api_hashtable_remove tEx [1]) ∧
    countersOk (api_hashtable_clear tEx) ∧
    countersOk (api_hashtable_resize tEx 3) ∧
    countersOk (api_hashtable_init sumHash 0 1) :=
  have h := C8_counters tEx [1] [2] 3 sumHash 0 1 (WF_init sumHash HT_NONE 1)
  ⟨h.1 (by decide), h.2.1, h.2.2.1, h.2.2.2.1, h.2.2.2.2.1, h.2.2.2.2.2⟩

/-- C9: when an operation cannot obtain memory it surfaces the distinct
`OutOfMemory` error kind, and invalid arguments (zero-length key, null
value pointer with nonzero declared size, resize to zero slots) fail with
the explicit `InvalidArgument` kind; valid calls succeed with the modelled
operation's result. -/
theorem C9_errors (allocOk : Bool) (t : Table) (k : List Nat)
    (value : Option (List Nat)) (value_size n : Nat) :
    (k.length = 0 →
      api_hashtable_insert_checked allocOk t k value value_size
        = .error .InvalidArgument) ∧
    (value = none → value_size ≠ 0 →
      api_hashtable_insert_checked allocOk t k value value_size
        = .error .InvalidArgument) ∧
    (k.length ≠ 0 → ¬ (value = none ∧ value_size ≠ 0) → allocOk = false →
      api_hashtable_insert_checked allocOk t k value value_size
        = .error .OutOfMemory) ∧
    (k.length ≠ 0 → ¬ (value = none ∧ value_size ≠ 0) → allocOk = true →
      api_hashtable_insert_checked allocOk t k value value_size
        = .ok (api_hashtable_insert t k (value.getD []))) ∧
    (api_hashtable_resize_checked allocOk t 0 = .error .InvalidArgument) ∧
    (n ≠ 0 → allocOk = false →
      api_hashtable_resize_checked allocOk t n = .error .OutOfMemory) ∧
    (n ≠ 0 → allocOk = true →
      api_hashtable_resize_checked allocOk t n
        = .ok (api_hashtable_resize t n)) := by
  refine ⟨?_, ?_, ?_, ?_, ?_, ?_, ?_⟩
  · intro h0
    unfold api_hashtable_insert_checked
    rw [if_pos h0]
  · intro hv hs
    unfold api_hashtable_insert_checked
    by_cases h0 : k.length = 0
    · rw [if_pos h0]
    · rw [if_neg h0, if_pos ⟨hv, hs⟩]
  · intro h0 hv hf
    unfold api_hashtable_insert_checked
    rw [if_neg h0, if_neg hv, if_pos hf]
  · intro h0 hv ht
    unfold api_hashtable_insert_checked
    rw [if_neg h0, if_neg hv, if_neg (by simp [ht])]
  · unfold api_hashtable_resize_checked
    rw [if_pos rfl]
  · intro hn hf
    unfold api_hashtable_resize_checked
    rw [if_neg hn, if_pos hf]
  · intro hn ht
    unfold api_hashtable_resize_checked
    rw [if_neg hn, if_neg (by simp [ht])]

theorem C9_errors_witness :
    api_hashtable_insert_checked true tEx [] (some [1]) 1
      = .error .InvalidArgument ∧
    api_hashtable_insert_checked true tEx [1] none 3
      = .error .InvalidArgument ∧
    api_hashtable_insert_checked false tEx [1] (some [2]) 1
      = .error .OutOfMemory ∧
    api_hashtable_insert_checked true tEx [1] (some [2]) 1
      = .ok (api_hashtable_insert tEx [1] [2]) ∧
    api_hashtable_resize_checked true tEx 0 = .error .InvalidArgument ∧
    api_hashtable_resize_checked false tEx 8 = .error .OutOfMemory ∧
    api_hashtable_resize_checked true tEx 8
      = .ok (api_hashtable_resize tEx 8) :=
  ⟨(C9_errors true tEx [] (some [1]) 1 0).1 (by decide),
   (C9_errors true tEx [1] none 3 0).2.1 rfl (by decide),
   (C9_errors false tEx [1] (some [2]) 1 0).2.2.1 (by decide) (by simp) rfl,
   (C9_errors true tEx [1] (some [2]) 1 0).2.2.2.1 (by decide) (by simp) rfl,
   (C9_errors true tEx [1] (some [1]) 1 0).2.2.2.2.1,
   (C9_errors false tEx [1] (some [1]) 1 8).2.2.2.2.2.1 (by decide) rfl,
   (C9_errors true tEx [1] (some [1]) 1 8).2.2.2.2.2.2 (by decide) rfl⟩

/-- C10: `HT_INITIAL_SIZE` is 64 (a build-time constant, not a per-table
parameter: `api_hashtable_init` takes only flags and the load-factor
threshold), and immediately after init `array_size = HT_INITIAL_SIZE`,
`key_count = 0` and `collisions = 0` for every flags and threshold. -/
theorem C10_init (hash : List Nat → Nat) (flags : Nat) (mlf : ℚ) :
    HT_INITIAL_SIZE = 64 ∧
    (api_hashtable_init hash flags mlf).array_size = HT_INITIAL_SIZE ∧
    (api_hashtable_init hash flags mlf).key_count = 0 ∧
    (api_hashtable_init hash flags mlf).collisions = 0 := by
  refine ⟨rfl, ?_, rfl, rfl⟩
  unfold api_hashtable_init Table.array_size
  simp

end ApiHashtable
